import Mathlib

set_option maxRecDepth 4000

/-! Verification development for the multi-agent system generator
    (`multi_agent_generator.py` and `multi_agent_generator_staged.py`).

    Strings are embedded as `List Char`; Python dicts as association
    lists with Python's insertion semantics (assignment to an existing
    key replaces the value in place, a fresh key is appended).  The
    completion service is an opaque oracle, as the design document
    prescribes.  All functions are executable and structurally
    recursive (bounded recursion is expressed with an explicit fuel
    argument that is always supplied with a sufficient value). -/

/-- Python-style whitespace test: matches `str.isspace` and the regex
    class `\s` on the ASCII range (space, tab, newline, carriage
    return, vertical tab, form feed). -/
def isSpace (c : Char) : Bool :=
  decide (c = ' ' ∨ c = '\t' ∨ c = '\n' ∨ c = '\r' ∨ c = Char.ofNat 11 ∨ c = Char.ofNat 12)

/-- The backtick character, written by code point to keep source text clean. -/
def bt : Char := Char.ofNat 96

/-- The three-backtick fence that delimits code blocks in the regex
    of `MultiAgentGenerator._parse_files_from_response`. -/
def fence : List Char := [bt, bt, bt]

/-- The literal `filename:` tag of the optional group in that regex. -/
def fnTag : List Char := ['f', 'i', 'l', 'e', 'n', 'a', 'm', 'e', ':']

/-- A list of characters containing no backtick (side condition used by
    the parser theorems so that fences are unambiguous). -/
def NoBacktick (l : List Char) : Prop := ∀ c ∈ l, c ≠ bt

instance (l : List Char) : Decidable (NoBacktick l) :=
  inferInstanceAs (Decidable (∀ c ∈ l, c ≠ bt))

/-- Boolean list-prefix test (the literal-matching steps of the regex). -/
def prefixOf : List Char → List Char → Bool
  | [], _ => true
  | _ :: _, [] => false
  | a :: as, b :: bs => if a = b then prefixOf as bs else false

/-- Split at the first newline: models the regex piece `([^\n]+)\n`
    (the caller rejects an empty first component).  Returns the line
    and the remainder after the newline. -/
def splitAtNewline : List Char → Option (List Char × List Char)
  | [] => none
  | c :: cs =>
    if c = '\n' then some ([], cs)
    else
      match splitAtNewline cs with
      | some (l, r) => some (c :: l, r)
      | none => none

/-- Split at the first occurrence of the three-backtick fence: models
    the lazy `(.*?)` followed by the closing fence under `re.DOTALL`.
    Returns the body before the fence and the remainder after it. -/
def splitAtFence : List Char → Option (List Char × List Char)
  | [] => none
  | c :: cs =>
    if prefixOf fence (c :: cs) then some ([], (c :: cs).drop 3)
    else
      match splitAtFence cs with
      | some (b, r) => some (c :: b, r)
      | none => none

/-- Length of the maximal whitespace run at the head of the input
    (the greedy extent of the regex piece `\s*`). -/
def wsRun : List Char → Nat
  | [] => 0
  | c :: cs => if isSpace c then wsRun cs + 1 else 0

/-- The part of the pattern after the optional label tag:
    `([^\n]+)\n(.*?)` then the closing fence.  Yields the label, the
    body and the remainder after the closing fence. -/
def coreMatch (v : List Char) : Option (List Char × List Char × List Char) :=
  match splitAtNewline v with
  | none => none
  | some (lab, rest) =>
    if lab = [] then none
    else
      match splitAtFence rest with
      | none => none
      | some (b, r) => some (lab, b, r)

/-- Backtracking over the greedy `\s*` inside `(?:filename:\s*)?`:
    the longest whitespace run is tried first, then shorter ones. -/
def tryWs : Nat → List Char → Option (List Char × List Char × List Char)
  | 0, v => coreMatch v
  | k + 1, v =>
    match coreMatch (v.drop (k + 1)) with
    | some r => some r
    | none => tryWs k v

/-- One attempted match of the pattern
    three backticks, then an optional `filename:` tag with trailing
    whitespace, then a non-empty label line, a newline, a lazy body and
    a closing fence - exactly the regex used by
    `_parse_files_from_response`, at the current position.  Returns the
    two capture groups and the text after the match. -/
def matchFencedAt (s : List Char) : Option (List Char × List Char × List Char) :=
  if prefixOf fence s then
    if prefixOf fnTag (s.drop 3) then
      match tryWs (wsRun ((s.drop 3).drop 9)) ((s.drop 3).drop 9) with
      | some r => some r
      | none => coreMatch (s.drop 3)
    else coreMatch (s.drop 3)
  else none

/-- The scan of `re.finditer`: attempt a match at every position from
    left to right; after a successful match continue after its end.
    The fuel argument dominates the number of positions (the caller
    passes the input length, which suffices because every step consumes
    at least one character). -/
def scanAux : Nat → List Char → List (List Char × List Char)
  | 0, _ => []
  | _ + 1, [] => []
  | f + 1, c :: cs =>
    match matchFencedAt (c :: cs) with
    | some (lab, b, rest) => (lab, b) :: scanAux f rest
    | none => scanAux f cs

/-- Python `str.strip()`: remove leading and trailing whitespace. -/
def pyStrip (l : List Char) : List Char :=
  ((l.dropWhile isSpace).reverse.dropWhile isSpace).reverse

/-- Python `str.lower()` restricted to ASCII (the only case the
    pipeline exercises). -/
def asciiLower (l : List Char) : List Char := l.map Char.toLower

/-- Fueled worker for `removeFilename` (Python's `str.replace` scans
    left to right over non-overlapping occurrences). -/
def rfAux : Nat → List Char → List Char
  | 0, s => s
  | _ + 1, [] => []
  | f + 1, c :: cs =>
    if prefixOf fnTag (c :: cs) then rfAux f ((c :: cs).drop 9)
    else c :: rfAux f cs

/-- Python `filepath.replace('filename:', '')`: delete every
    occurrence of the tag. -/
def removeFilename (s : List Char) : List Char := rfAux s.length s

/-- The language identifiers that `_parse_files_from_response` skips:
    `['python', 'yaml', 'yml', 'bash', 'sh', 'dockerfile', 'json',
    'markdown', 'md']`. -/
def skipTags : List (List Char) :=
  ["python".data, "yaml".data, "yml".data, "bash".data, "sh".data,
   "dockerfile".data, "json".data, "markdown".data, "md".data]

/-- Lookup in a Python dict embedded as an association list; when a key
    occurs several times (possible only for raw oracle output, never
    for a dict built by `pyInsert`) the later entry wins, matching the
    effect of iterating the pairs in order. -/
def dget {α β : Type} [DecidableEq α] : List (α × β) → α → Option β
  | [], _ => none
  | p :: d, k =>
    match dget d k with
    | some v => some v
    | none => if p.1 = k then some p.2 else none

/-- Python `k in d` for the embedded dict. -/
def containsKey {α β : Type} [DecidableEq α] : List (α × β) → α → Bool
  | [], _ => false
  | p :: d, k => decide (p.1 = k) || containsKey d k

/-- Python `d[k] = v`: replace in place when the key exists, append
    otherwise (insertion order is preserved, as in CPython). -/
def pyInsert {α β : Type} [DecidableEq α] (d : List (α × β)) (k : α) (v : β) :
    List (α × β) :=
  if containsKey d k then d.map (fun p => if p.1 = k then (k, v) else p)
  else d ++ [(k, v)]

/-- Python `d.update(u)`: assign every pair of `u` into `d` in order. -/
def pyUpdate {α β : Type} [DecidableEq α] (d u : List (α × β)) : List (α × β) :=
  u.foldl (fun a p => pyInsert a p.1 p.2) d

/-- The body of the `for match in matches` loop of
    `_parse_files_from_response`: strip the label and the body, skip
    bare language tags, clean a residual `filename:` prefix out of the
    label and assign into the result dict. -/
def procMatches (acc : List (List Char × List Char)) :
    List (List Char × List Char) → List (List Char × List Char)
  | [] => acc
  | (lab, body) :: rest =>
    if asciiLower (pyStrip lab) ∈ skipTags then procMatches acc rest
    else
      procMatches
        (pyInsert acc (pyStrip (removeFilename (pyStrip lab))) (pyStrip body))
        rest

namespace MultiAgentGenerator

/-- `MultiAgentGenerator._parse_files_from_response`: run the fenced
    block regex over the whole response and build the path-to-content
    dict. -/
def parse_files_from_response (content : List Char) :
    List (List Char × List Char) :=
  procMatches [] (scanAux content.length content)

/-- Python `filepath.endswith('.sh')`. -/
def endsWithDotSh (s : String) : Bool :=
  prefixOf (".sh".data.reverse) s.data.reverse

/-- `MultiAgentGenerator._write_files`, with the on-disk effect
    reflected as a list of written entries `(path, content, executable)`;
    the file is chmodded to 0o755 exactly when the path ends in `.sh`,
    all other files keep default (non-executable) permissions. -/
def write_files (files : List (String × String)) :
    List (String × String × Bool) :=
  files.map (fun p => (p.1, p.2, endsWithDotSh p.1))

/-- `MultiAgentGenerator.iterate_on_system` after the completion call:
    the modification reply is parsed with the fenced-block parser and
    every parsed pair is assigned into the existing artifact set, which
    is returned.  (The write-out of the updated files is modelled by
    `write_files`.) -/
def iterate_on_system (existing_files : List (List Char × List Char))
    (reply : List Char) : List (List Char × List Char) :=
  pyUpdate existing_files (parse_files_from_response reply)

end MultiAgentGenerator

/-- Substring test, Python's `pat in s` for strings. -/
def containsSub (pat : List Char) : List Char → Bool
  | [] => decide (pat = [])
  | c :: cs => prefixOf pat (c :: cs) || containsSub pat cs

/-- Convenience wrapper of `containsSub` on `String`. -/
def hasSub (pat s : String) : Bool := containsSub pat.data s.data

namespace ImprovedMultiAgentGenerator

/-- The initial `groups` dict of `_group_files`, in declaration order. -/
def groupsInit : List (String × List String) :=
  [("infrastructure", []), ("publishers", []), ("consumers", []),
   ("monitor", []), ("config", [])]

/-- Append a path to the named group. -/
def addToGroup (gs : List (String × List String)) (name f : String) :
    List (String × List String) :=
  gs.map (fun g => if g.1 = name then (g.1, g.2 ++ [f]) else g)

/-- `ImprovedMultiAgentGenerator._group_files`: route every manifest
    path by the first matching substring predicate
    (docker-compose, publisher, consumer, monitor, default config),
    then drop empty groups. -/
def group_files (manifest : List String) : List (String × List String) :=
  (manifest.foldl
    (fun gs filepath =>
      if hasSub "docker-compose" filepath then addToGroup gs "infrastructure" filepath
      else if hasSub "publisher" filepath then addToGroup gs "publishers" filepath
      else if hasSub "consumer" filepath then addToGroup gs "consumers" filepath
      else if hasSub "monitor" filepath then addToGroup gs "monitor" filepath
      else addToGroup gs "config" filepath)
    groupsInit).filter (fun g => !g.2.isEmpty)

/-- Result of one at-most-five-path chunk request in
    `_generate_file_group`: the completion reply is parsed as JSON;
    `none` models a decode failure, which the `except` branch turns
    into an empty dict instead of raising. -/
def chunkResult (bo : List String → Option (List (String × String)))
    (c : List String) : List (String × String) :=
  match bo c with
  | some d => d
  | none => []

/-- Fueled splitting of a path list into consecutive chunks of at most
    five (`file_list[i:i+5]` for `i in range(0, len(file_list), 5)`). -/
def chunksAux : Nat → List String → List (List String)
  | 0, _ => []
  | _ + 1, [] => []
  | f + 1, c :: cs => ((c :: cs).take 5) :: chunksAux f ((c :: cs).drop 5)

/-- The chunk decomposition used by `_generate_file_group`. -/
def chunksOf5 (l : List String) : List (List String) := chunksAux l.length l

/-- Fueled body of `_generate_file_group`: an empty list yields an
    empty dict, a list longer than five is split into chunks of at most
    five whose results are merged by `results.update(...)` in order,
    and a short list is sent as one request. -/
def gfgAux (bo : List String → Option (List (String × String))) :
    Nat → List String → List (String × String)
  | 0, _ => []
  | f + 1, l =>
    if l.isEmpty then []
    else if 5 < l.length then
      (chunksOf5 l).foldl (fun acc c => pyUpdate acc (gfgAux bo f c)) []
    else chunkResult bo l

/-- `ImprovedMultiAgentGenerator._generate_file_group` (the recursion
    depth is at most two, so `length + 1` fuel is always enough). -/
def generate_file_group (bo : List String → Option (List (String × String)))
    (l : List String) : List (String × String) :=
  gfgAux bo (l.length + 1) l

/-- Phase 2 of `generate_system`: generate every group in order and
    merge each result into the accumulated dict with
    `files.update(generated)`. -/
def phase2 (bo : List String → Option (List (String × String)))
    (manifest : List String) : List (String × String) :=
  (group_files manifest).foldl
    (fun fs g => pyUpdate fs (generate_file_group bo g.2)) []

/-- The `missing` list of phase 3:
    `[f for f in manifest if f not in files]`. -/
def missingAfterBatch (bo : List String → Option (List (String × String)))
    (manifest : List String) : List String :=
  manifest.filter (fun f => !(containsKey (phase2 bo manifest) f))

/-- Phase 3 of `generate_system`: for each missing path ask
    `_generate_single_file` (modelled by the oracle `go`, which sees the
    path and the current artifact dict and returns the stripped reply
    text); a falsy (empty) reply leaves the path unresolved, anything
    else is assigned into the dict.  (Python binds the reply once with
    `content = ...`; the oracle is pure, so repeating the call is
    equal.) -/
def gapFill (go : String → List (String × String) → String)
    (missing : List String) (files : List (String × String)) :
    List (String × String) :=
  missing.foldl
    (fun fs f => if go f fs = "" then fs else pyInsert fs f (go f fs))
    files

/-- `ImprovedMultiAgentGenerator.generate_system` downstream of the
    manifest (phase 1 is the manifest oracle itself): returns the final
    artifact dict together with the paths reported as not generated in
    the closing summary.  The source prints that summary only under the
    guard `if len(files) < len(manifest)`, and then lists
    `set(manifest) - set(files.keys())` (embedded as the manifest
    filtered to keys absent from the final dict); when the guard is
    false nothing is reported. -/
def generate_system (bo : List String → Option (List (String × String)))
    (go : String → List (String × String) → String)
    (manifest : List String) :
    List (String × String) × List String :=
  let files3 := gapFill go (missingAfterBatch bo manifest) (phase2 bo manifest)
  (files3,
   if files3.length < manifest.length then
     manifest.filter (fun f => !(containsKey files3 f))
   else [])

/-- `ImprovedMultiAgentGenerator._write_files`, with the on-disk effect
    reflected as `(path, content, executable)` entries: this writer
    only opens and writes each file and never changes permission bits,
    so every file is left non-executable. -/
def write_files (files : List (String × String)) :
    List (String × String × Bool) :=
  files.map (fun p => (p.1, p.2, false))

end ImprovedMultiAgentGenerator

/-- Merge step for dict lookups: the second (later) operand wins when
    it is present, otherwise the first is kept. -/
def laterWins {β : Type} (o v : Option β) : Option β :=
  match v with
  | some w => some w
  | none => o

/-- A delimited block in the exact wire shape the generation prompt
    requests: an opening fence, the `filename:` tag, one space, a label,
    a newline, the body, a closing fence, then the rest of the
    document. -/
def mkBlock (lab b r : List Char) : List Char :=
  fence ++ (fnTag ++ (' ' :: (lab ++ ('\n' :: (b ++ (fence ++ r))))))

/-- A delimited block whose opening line is a bare label with no
    `filename:` tag, followed by the rest of the document. -/
def soloBlock (lab b r : List Char) : List Char :=
  fence ++ (lab ++ ('\n' :: (b ++ (fence ++ r))))

/-- The modification reply of the iteration example: a changed `a.py`
    and a new `c.py`, each in a fenced block. -/
def c9Reply : List Char :=
  "```filename: a.py\nv2\n```\n```filename: c.py\nv3\n```".data

/-- A twelve-path batch used to exercise the chunk splitting. -/
def l12 : List String :=
  ["f1", "f2", "f3", "f4", "f5", "f6", "f7", "f8", "f9", "f10", "f11", "f12"]

/-! Lemmas about the embedded Python dict. -/

lemma bor_true {a b : Bool} (h : (a || b) = true) : a = true ∨ b = true := by
  cases a <;> cases b <;> simp_all

lemma bor_false {a b : Bool} (h : (a || b) = false) : a = false ∧ b = false := by
  cases a <;> cases b <;> simp_all

lemma dget_nil {α β : Type} [DecidableEq α] (k : α) :
    dget ([] : List (α × β)) k = none := rfl

lemma dget_cons {α β : Type} [DecidableEq α] (p : α × β) (d : List (α × β))
    (k : α) :
    dget (p :: d) k
      = match dget d k with
        | some v => some v
        | none => if p.1 = k then some p.2 else none := rfl

lemma ck_cons {α β : Type} [DecidableEq α] (p : α × β) (d : List (α × β))
    (k : α) :
    containsKey (p :: d) k = (decide (p.1 = k) || containsKey d k) := rfl

lemma ck_eq_isSome {α β : Type} [DecidableEq α] (d : List (α × β)) (k : α) :
    containsKey d k = (dget d k).isSome := by
  induction d with
  | nil => rfl
  | cons p d ih =>
    rw [ck_cons, ih, dget_cons]
    cases hd : dget d k with
    | some v => simp
    | none => by_cases h : p.1 = k <;> simp [h]

lemma ck_exists {α β : Type} [DecidableEq α] (d : List (α × β)) (k : α)
    (h : containsKey d k = true) : ∃ p ∈ d, p.1 = k := by
  induction d with
  | nil => simp [containsKey] at h
  | cons p d ih =>
    rw [ck_cons] at h
    rcases bor_true h with h' | h'
    · exact ⟨p, List.mem_cons_self _ _, of_decide_eq_true h'⟩
    · rcases ih h' with ⟨q, hq, hk⟩
      exact ⟨q, List.mem_cons_of_mem _ hq, hk⟩

lemma dget_append_last {α β : Type} [DecidableEq α] (d : List (α × β))
    (k0 : α) (v : β) (k : α) :
    dget (d ++ [(k0, v)]) k = if k = k0 then some v else dget d k := by
  induction d with
  | nil =>
    rw [List.nil_append, dget_cons, dget_nil]
    by_cases h : k = k0
    · subst h; simp
    · have h' : ¬k0 = k := fun e => h e.symm
      simp [h, h']
  | cons p d ih =>
    rw [List.cons_append, dget_cons, ih, dget_cons]
    by_cases h : k = k0
    · subst h; simp
    · simp only [if_neg h]

lemma dget_map_assign_ne {α β : Type} [DecidableEq α] (d : List (α × β))
    (k0 : α) (v : β) (k : α) (hk : ¬k = k0) :
    dget (d.map (fun p => if p.1 = k0 then (k0, v) else p)) k = dget d k := by
  induction d with
  | nil => rfl
  | cons p d ih =>
    rw [List.map_cons, dget_cons, ih, dget_cons]
    by_cases hp : p.1 = k0
    · have h1 : ¬k0 = k := fun e => hk e.symm
      have h2 : ¬p.1 = k := fun e => hk (e ▸ hp)
      cases hd : dget d k <;> simp [hp, h1, h2]
    · simp only [if_neg hp]

lemma dget_map_assign_self {α β : Type} [DecidableEq α] (d : List (α × β))
    (k0 : α) (v : β) :
    dget (d.map (fun p => if p.1 = k0 then (k0, v) else p)) k0
      = if containsKey d k0 then some v else none := by
  induction d with
  | nil => rfl
  | cons p d ih =>
    rw [List.map_cons, dget_cons, ih, ck_cons]
    by_cases hp : p.1 = k0 <;> cases hck : containsKey d k0 <;> simp [hp, hck]

lemma dget_pyInsert {α β : Type} [DecidableEq α] (d : List (α × β))
    (k0 : α) (v : β) (k : α) :
    dget (pyInsert d k0 v) k = if k = k0 then some v else dget d k := by
  unfold pyInsert
  cases h : containsKey d k0 with
  | false =>
    simp only [h, Bool.false_eq_true, if_false]
    exact dget_append_last d k0 v k
  | true =>
    simp only [h, if_true]
    by_cases hk : k = k0
    · subst hk
      rw [dget_map_assign_self, h]
      simp
    · rw [dget_map_assign_ne d k0 v k hk]
      simp [hk]

lemma ck_pyInsert {α β : Type} [DecidableEq α] (d : List (α × β))
    (k0 : α) (v : β) (k : α) :
    containsKey (pyInsert d k0 v) k = (containsKey d k || decide (k = k0)) := by
  rw [ck_eq_isSome, dget_pyInsert, ck_eq_isSome]
  by_cases h : k = k0 <;> simp [h]

lemma dget_pyUpdate {α β : Type} [DecidableEq α] (d u : List (α × β)) (k : α) :
    dget (pyUpdate d u) k = laterWins (dget d k) (dget u k) := by
  induction u generalizing d with
  | nil => simp [pyUpdate, dget_nil, laterWins]
  | cons p u ih =>
    show dget (pyUpdate (pyInsert d p.1 p.2) u) k = _
    rw [ih, dget_pyInsert, dget_cons]
    cases hu : dget u k with
    | some v => simp [laterWins]
    | none =>
      by_cases hp : p.1 = k
      · have hp' : k = p.1 := hp.symm
        simp [laterWins, if_pos hp, if_pos hp']
      · have hp' : ¬k = p.1 := fun e => hp e.symm
        simp [laterWins, if_neg hp, if_neg hp']

lemma ck_pyUpdate {α β : Type} [DecidableEq α] (d u : List (α × β)) (k : α) :
    containsKey (pyUpdate d u) k = (containsKey d k || containsKey u k) := by
  rw [ck_eq_isSome, ck_eq_isSome, ck_eq_isSome, dget_pyUpdate]
  cases hu : dget u k <;> simp [laterWins]

lemma dget_foldl_update {γ α β : Type} [DecidableEq α]
    (F : γ → List (α × β)) (k : α) :
    ∀ (cs : List γ) (a0 : List (α × β)),
      dget (cs.foldl (fun a c => pyUpdate a (F c)) a0) k
        = cs.foldl (fun o c => laterWins o (dget (F c) k)) (dget a0 k) := by
  intro cs
  induction cs with
  | nil => intro a0; rfl
  | cons c cs ih =>
    intro a0
    show dget (cs.foldl _ (pyUpdate a0 (F c))) k = _
    rw [ih, dget_pyUpdate]
    simp only [List.foldl_cons]

lemma ck_foldl_update_bound {γ α β : Type} [DecidableEq α]
    (F : γ → List (α × β)) (k : α) :
    ∀ (xs : List γ) (a0 : List (α × β)),
      containsKey (xs.foldl (fun a x => pyUpdate a (F x)) a0) k = true →
      containsKey a0 k = true ∨ ∃ x ∈ xs, containsKey (F x) k = true := by
  intro xs
  induction xs with
  | nil => intro a0 h; exact Or.inl h
  | cons x xs ih =>
    intro a0 h
    rcases ih (pyUpdate a0 (F x)) h with h' | ⟨y, hy, hk⟩
    · rw [ck_pyUpdate] at h'
      rcases bor_true h' with h0 | h0
      · exact Or.inl h0
      · exact Or.inr ⟨x, List.mem_cons_self _ _, h0⟩
    · exact Or.inr ⟨y, List.mem_cons_of_mem _ hy, hk⟩

/-! Lemmas about the staged pipeline. -/

lemma chunkResult_none (bo : List String → Option (List (String × String)))
    (c : List String) (h : bo c = none) :
    ImprovedMultiAgentGenerator.chunkResult bo c = [] := by
  unfold ImprovedMultiAgentGenerator.chunkResult
  rw [h]

lemma chunkResult_some (bo : List String → Option (List (String × String)))
    (c : List String) (d : List (String × String)) (h : bo c = some d) :
    ImprovedMultiAgentGenerator.chunkResult bo c = d := by
  unfold ImprovedMultiAgentGenerator.chunkResult
  rw [h]

lemma gfg_key_bound (bo : List String → Option (List (String × String)))
    (k : String) :
    ∀ (fuel : Nat) (l : List String),
      containsKey (ImprovedMultiAgentGenerator.gfgAux bo fuel l) k = true →
      ∃ c, containsKey (ImprovedMultiAgentGenerator.chunkResult bo c) k = true := by
  intro fuel
  induction fuel with
  | zero =>
    intro l h
    simp [ImprovedMultiAgentGenerator.gfgAux, containsKey] at h
  | succ f ih =>
    intro l h
    rw [ImprovedMultiAgentGenerator.gfgAux] at h
    by_cases he : l.isEmpty = true
    · rw [if_pos he] at h
      simp [containsKey] at h
    · rw [if_neg he] at h
      by_cases h5 : 5 < l.length
      · rw [if_pos h5] at h
        rcases ck_foldl_update_bound
            (fun c => ImprovedMultiAgentGenerator.gfgAux bo f c) k
            (ImprovedMultiAgentGenerator.chunksOf5 l) [] h with h0 | ⟨c, _, hc⟩
        · simp [containsKey] at h0
        · exact ih c hc
      · rw [if_neg h5] at h
        exact ⟨l, h⟩

lemma phase2_key_bound (bo : List String → Option (List (String × String)))
    (manifest : List String) (k : String)
    (h : containsKey (ImprovedMultiAgentGenerator.phase2 bo manifest) k = true) :
    ∃ c, containsKey (ImprovedMultiAgentGenerator.chunkResult bo c) k = true := by
  rcases ck_foldl_update_bound
      (fun g : String × List String =>
        ImprovedMultiAgentGenerator.generate_file_group bo g.2) k
      (ImprovedMultiAgentGenerator.group_files manifest) [] h with h0 | ⟨g, _, hg⟩
  · simp [containsKey] at h0
  · exact gfg_key_bound bo k (g.2.length + 1) g.2 hg

lemma phase2_ck_false (bo : List String → Option (List (String × String)))
    (manifest : List String) (p : String)
    (h : ∀ c d, bo c = some d → containsKey d p = false) :
    containsKey (ImprovedMultiAgentGenerator.phase2 bo manifest) p = false := by
  cases hck : containsKey (ImprovedMultiAgentGenerator.phase2 bo manifest) p
  · rfl
  · rcases phase2_key_bound bo manifest p hck with ⟨c, hc⟩
    cases hbo : bo c with
    | none =>
      rw [chunkResult_none bo c hbo] at hc
      simp [containsKey] at hc
    | some d =>
      rw [chunkResult_some bo c d hbo, h c d hbo] at hc
      simp at hc

lemma gapFill_cons (go : String → List (String × String) → String)
    (f : String) (ms : List String) (fs : List (String × String)) :
    ImprovedMultiAgentGenerator.gapFill go (f :: ms) fs
      = ImprovedMultiAgentGenerator.gapFill go ms
          (if go f fs = "" then fs else pyInsert fs f (go f fs)) := rfl

lemma gapFill_preserve (go : String → List (String × String) → String)
    (p : String) (hgo : ∀ fs, go p fs = "") :
    ∀ (missing : List String) (fs : List (String × String)),
      containsKey fs p = false →
      containsKey (ImprovedMultiAgentGenerator.gapFill go missing fs) p = false := by
  intro missing
  induction missing with
  | nil => intro fs h; exact h
  | cons f ms ih =>
    intro fs h
    rw [gapFill_cons]
    apply ih
    by_cases hc : go f fs = ""
    · rw [if_pos hc]; exact h
    · rw [if_neg hc, ck_pyInsert, h]
      have hpf : ¬(p = f) := by
        intro e
        apply hc
        rw [← e]
        exact hgo fs
      simp [hpf]

lemma gapFill_key_bound (go : String → List (String × String) → String) :
    ∀ (missing : List String) (fs : List (String × String)) (k : String),
      containsKey (ImprovedMultiAgentGenerator.gapFill go missing fs) k = true →
      containsKey fs k = true ∨ k ∈ missing := by
  intro missing
  induction missing with
  | nil => intro fs k h; exact Or.inl h
  | cons f ms ih =>
    intro fs k h
    rw [gapFill_cons] at h
    rcases ih _ k h with h' | hm
    · by_cases hc : go f fs = ""
      · rw [if_pos hc] at h'
        exact Or.inl h'
      · rw [if_neg hc, ck_pyInsert] at h'
        rcases bor_true h' with h0 | h0
        · exact Or.inl h0
        · exact Or.inr (by rw [of_decide_eq_true h0]; exact List.mem_cons_self _ _)
    · exact Or.inr (List.mem_cons_of_mem _ hm)

lemma chunksAux_spec :
    ∀ (fuel : Nat) (l : List String), l.length ≤ fuel →
      (ImprovedMultiAgentGenerator.chunksAux fuel l).flatten = l
      ∧ ∀ c ∈ ImprovedMultiAgentGenerator.chunksAux fuel l,
          c.length ≤ 5 ∧ c ≠ [] := by
  intro fuel
  induction fuel with
  | zero =>
    intro l hl
    have : l = [] := List.eq_nil_of_length_eq_zero (Nat.le_zero.mp hl)
    subst this
    exact ⟨rfl, by intro c hc; simp [ImprovedMultiAgentGenerator.chunksAux] at hc⟩
  | succ f ih =>
    intro l hl
    cases l with
    | nil =>
      exact ⟨rfl, by intro c hc; simp [ImprovedMultiAgentGenerator.chunksAux] at hc⟩
    | cons a as =>
      have hdrop : ((a :: as).drop 5).length ≤ f := by
        rw [List.length_drop]
        simp only [List.length_cons] at hl ⊢
        omega
      rcases ih _ hdrop with ⟨hj, hmem⟩
      constructor
      · show ((a :: as).take 5
            :: ImprovedMultiAgentGenerator.chunksAux f ((a :: as).drop 5)).flatten
            = a :: as
        rw [List.flatten_cons, hj, List.take_append_drop]
      · intro c hc
        rcases List.mem_cons.mp hc with rfl | hc'
        · constructor
          · rw [List.length_take]
            exact Nat.min_le_left _ _
          · simp
        · exact hmem c hc'

lemma chunksOf5_spec (l : List String) :
    (ImprovedMultiAgentGenerator.chunksOf5 l).flatten = l
    ∧ ∀ c ∈ ImprovedMultiAgentGenerator.chunksOf5 l, c.length ≤ 5 ∧ c ≠ [] :=
  chunksAux_spec l.length l (Nat.le_refl _)

lemma foldl_congr_mem {γ δ : Type} (xs : List γ) (F G : δ → γ → δ) (a0 : δ)
    (h : ∀ a, ∀ x ∈ xs, F a x = G a x) : xs.foldl F a0 = xs.foldl G a0 := by
  induction xs generalizing a0 with
  | nil => rfl
  | cons x xs ih =>
    rw [List.foldl_cons, List.foldl_cons, h a0 x (List.mem_cons_self _ _)]
    exact ih _ (fun a y hy => h a y (List.mem_cons_of_mem _ hy))

/-! Claim theorems. -/

/-- Claim C1, counterexample: the grouping of the manifest
    `["docker-compose.yml", "agent1/Dockerfile", "agent1/publish.py"]`
    is not the claimed
    `{infrastructure: [docker-compose.yml], publishers: [agent1/publish.py],
    config: [agent1/Dockerfile]}`; in fact no `publishers` group exists
    at all, because `"publisher"` is not a substring of
    `"agent1/publish.py"`. -/
theorem claim_c1_counterexample :
    ImprovedMultiAgentGenerator.group_files
        ["docker-compose.yml", "agent1/Dockerfile", "agent1/publish.py"]
      ≠ [("infrastructure", ["docker-compose.yml"]),
         ("publishers", ["agent1/publish.py"]),
         ("config", ["agent1/Dockerfile"])]
    ∧ dget (ImprovedMultiAgentGenerator.group_files
          ["docker-compose.yml", "agent1/Dockerfile", "agent1/publish.py"])
        "publishers" = none := by
  decide

/-- Claim C1, amended: the grouping step on that manifest produces
    `{infrastructure: [docker-compose.yml],
    config: [agent1/Dockerfile, agent1/publish.py]}` - the path
    `agent1/publish.py` does not contain the substring `publisher`
    and therefore falls into the default `config` group, and the empty
    groups are omitted. -/
theorem claim_c1_amended :
    ImprovedMultiAgentGenerator.group_files
        ["docker-compose.yml", "agent1/Dockerfile", "agent1/publish.py"]
      = [("infrastructure", ["docker-compose.yml"]),
         ("config", ["agent1/Dockerfile", "agent1/publish.py"])] := by
  decide

/-- Claim C2, counterexample: with manifest `["a.py"]` and a batch
    reply that also carries the unrequested key `evil.py`, the staged
    entry point returns an artifact set containing `evil.py`, a path
    outside the manifest. -/
theorem claim_c2_counterexample :
    containsKey
        (ImprovedMultiAgentGenerator.generate_system
          (fun _ => some [("a.py", "x"), ("evil.py", "y")])
          (fun _ _ => "") ["a.py"]).1 "evil.py" = true
    ∧ "evil.py" ∉ ["a.py"] := by
  decide

/-- Claim C2, amended: the staged entry point merges batch replies
    wholesale, so the manifest-subset property holds exactly when every
    decoded batch reply only maps paths of the manifest; under that
    hypothesis every path of the final artifact set is a manifest
    member (gap-filling itself only ever adds manifest paths). -/
theorem claim_c2_amended :
    ∀ (bo : List String → Option (List (String × String)))
      (go : String → List (String × String) → String)
      (manifest : List String),
      (∀ c d, bo c = some d → ∀ p ∈ d, p.1 ∈ manifest) →
      ∀ k,
        containsKey
          (ImprovedMultiAgentGenerator.generate_system bo go manifest).1 k
            = true →
        k ∈ manifest := by
  intro bo go manifest H k hk
  have hk' : containsKey
      (ImprovedMultiAgentGenerator.gapFill go
        (ImprovedMultiAgentGenerator.missingAfterBatch bo manifest)
        (ImprovedMultiAgentGenerator.phase2 bo manifest)) k = true := hk
  rcases gapFill_key_bound go _ _ k hk' with h2 | hmiss
  · rcases phase2_key_bound bo manifest k h2 with ⟨c, hc⟩
    cases hbo : bo c with
    | none =>
      rw [chunkResult_none bo c hbo] at hc
      simp [containsKey] at hc
    | some d =>
      rw [chunkResult_some bo c d hbo] at hc
      rcases ck_exists d k hc with ⟨p, hpd, hpk⟩
      have hmem := H c d hbo p hpd
      rwa [hpk] at hmem
  · exact (List.mem_filter.mp hmiss).1

/-- Claim C2, witness for the amended theorem: a benign oracle whose
    only reply maps exactly the requested manifest path. -/
theorem claim_c2_amended_witness :
    containsKey
        (ImprovedMultiAgentGenerator.generate_system
          (fun _ => some [("a.py", "x")]) (fun _ _ => "") ["a.py"]).1 "a.py"
      = true
    ∧ "a.py" ∈ ["a.py"] :=
  ⟨by decide,
   claim_c2_amended (fun _ => some [("a.py", "x")]) (fun _ _ => "") ["a.py"]
     (fun c d h => by cases h; decide) "a.py" (by decide)⟩

/-- Claim C3, counterexample: the staged generator's file writer
    leaves `scripts/run.sh` non-executable even though the path ends in
    the shell-script suffix, refuting the claimed equivalence for that
    writer. -/
theorem claim_c3_counterexample :
    ImprovedMultiAgentGenerator.write_files [("scripts/run.sh", "echo hi")]
      = [("scripts/run.sh", "echo hi", false)]
    ∧ MultiAgentGenerator.endsWithDotSh "scripts/run.sh" = true := by
  decide

/-- Claim C3, amended: the primary generator's writer marks a file
    executable exactly when its path ends in `.sh` (so
    `scripts/run.sh` is executable and `app.py` is not), while the
    staged generator's writer never changes permissions and leaves
    every file non-executable. -/
theorem claim_c3_amended :
    ∀ files : List (String × String),
      (∀ e ∈ MultiAgentGenerator.write_files files,
        e.2.2 = MultiAgentGenerator.endsWithDotSh e.1)
      ∧ (∀ e ∈ ImprovedMultiAgentGenerator.write_files files, e.2.2 = false)
      ∧ MultiAgentGenerator.write_files [("scripts/run.sh", "echo hi")]
          = [("scripts/run.sh", "echo hi", true)]
      ∧ MultiAgentGenerator.write_files [("app.py", "print(1)")]
          = [("app.py", "print(1)", false)] := by
  intro files
  refine ⟨?_, ?_, by decide, by decide⟩
  · intro e he
    rcases List.mem_map.mp he with ⟨p, _, rfl⟩
    rfl
  · intro e he
    rcases List.mem_map.mp he with ⟨p, _, rfl⟩
    rfl

/-- Claim C3, witness for the amended theorem at a concrete artifact. -/
theorem claim_c3_amended_witness :
    (("scripts/run.sh" : String), ("echo hi" : String), true).2.2
      = MultiAgentGenerator.endsWithDotSh
          (("scripts/run.sh" : String), ("echo hi" : String), true).1 :=
  (claim_c3_amended [("scripts/run.sh", "echo hi")]).1
    ("scripts/run.sh", "echo hi", true) (by decide)

/-- Claim C4: a group of more than five paths is generated as the
    in-order merge of its consecutive chunks of at most five paths,
    each chunk requested independently; the chunk list flattens back
    to the group, and the lookup of any path in the merged result is
    the last chunk reply that provides it (later chunk wins). -/
theorem claim_c4 :
    ∀ (bo : List String → Option (List (String × String))) (l : List String),
      5 < l.length →
      ImprovedMultiAgentGenerator.generate_file_group bo l
        = (ImprovedMultiAgentGenerator.chunksOf5 l).foldl
            (fun acc c =>
              pyUpdate acc (ImprovedMultiAgentGenerator.chunkResult bo c)) []
      ∧ (ImprovedMultiAgentGenerator.chunksOf5 l).flatten = l
      ∧ (∀ c ∈ ImprovedMultiAgentGenerator.chunksOf5 l, c.length ≤ 5 ∧ c ≠ [])
      ∧ ∀ k,
          dget (ImprovedMultiAgentGenerator.generate_file_group bo l) k
            = (ImprovedMultiAgentGenerator.chunksOf5 l).foldl
                (fun o c =>
                  laterWins o
                    (dget (ImprovedMultiAgentGenerator.chunkResult bo c) k))
                none := by
  intro bo l h5
  rcases chunksOf5_spec l with ⟨hflat, hmem⟩
  have hne : l.isEmpty = false := by
    cases l
    · simp at h5
    · rfl
  have hmain : ImprovedMultiAgentGenerator.generate_file_group bo l
      = (ImprovedMultiAgentGenerator.chunksOf5 l).foldl
          (fun acc c =>
            pyUpdate acc (ImprovedMultiAgentGenerator.chunkResult bo c)) [] := by
    show ImprovedMultiAgentGenerator.gfgAux bo (l.length + 1) l = _
    rw [ImprovedMultiAgentGenerator.gfgAux, if_neg (by simp [hne]), if_pos h5]
    apply foldl_congr_mem
    intro a c hc
    rcases hmem c hc with ⟨hc5, hcne⟩
    congr 1
    have hcE : c.isEmpty = false := by
      cases c
      · exact absurd rfl hcne
      · rfl
    obtain ⟨m, hm⟩ : ∃ m, l.length = m + 1 := ⟨l.length - 1, by omega⟩
    rw [hm, ImprovedMultiAgentGenerator.gfgAux, if_neg (by simp [hcE]),
      if_neg (by omega : ¬5 < c.length)]
  refine ⟨hmain, hflat, hmem, ?_⟩
  intro k
  rw [hmain,
    dget_foldl_update (fun c => ImprovedMultiAgentGenerator.chunkResult bo c) k
      (ImprovedMultiAgentGenerator.chunksOf5 l) [], dget_nil]

/-- Claim C4, witness: a twelve-path batch under an echo oracle. -/
theorem claim_c4_witness :
    5 < l12.length
    ∧ ImprovedMultiAgentGenerator.generate_file_group
        (fun c => some (c.map (fun p => (p, p)))) l12
        = (ImprovedMultiAgentGenerator.chunksOf5 l12).foldl
            (fun acc c =>
              pyUpdate acc
                (ImprovedMultiAgentGenerator.chunkResult
                  (fun c => some (c.map (fun p => (p, p)))) c)) [] :=
  ⟨by decide,
   (claim_c4 (fun c => some (c.map (fun p => (p, p)))) l12 (by decide)).1⟩

/-- Claim C5: when the reply for a chunk fails to decode, the chunk
    contributes an empty result instead of raising, and a path of that
    chunk that no decoded reply provides stays absent from the
    batch-phase artifact set, so (being a manifest path) it lands in
    the `missing` list that the gap-filling phase works through. -/
theorem claim_c5 :
    ∀ (bo : List String → Option (List (String × String)))
      (manifest chunk : List String) (p : String),
      p ∈ chunk →
      bo chunk = none →
      (∀ c d, bo c = some d → containsKey d p = false) →
      ImprovedMultiAgentGenerator.chunkResult bo chunk = []
      ∧ containsKey (ImprovedMultiAgentGenerator.phase2 bo manifest) p = false
      ∧ (p ∈ manifest →
          p ∈ ImprovedMultiAgentGenerator.missingAfterBatch bo manifest) := by
  intro bo manifest chunk p _ hnone H
  refine ⟨chunkResult_none bo chunk hnone, phase2_ck_false bo manifest p H, ?_⟩
  intro hm
  apply List.mem_filter.mpr
  refine ⟨hm, ?_⟩
  rw [phase2_ck_false bo manifest p H]
  rfl

/-- Claim C5, witness: an oracle that always fails to decode. -/
theorem claim_c5_witness :
    ImprovedMultiAgentGenerator.chunkResult
        (fun _ => (none : Option (List (String × String)))) ["a.py"] = []
    ∧ "a.py" ∈ ImprovedMultiAgentGenerator.missingAfterBatch
        (fun _ => none) ["a.py"] := by
  have h := claim_c5 (fun _ => none) ["a.py"] ["a.py"] "a.py" (by decide) rfl
    (fun c d hcd => by cases hcd)
  exact ⟨h.1, h.2.2 (by decide)⟩

/-! Lemmas about the fenced-block parser. -/

lemma prefixOf_append (p t : List Char) : prefixOf p (p ++ t) = true := by
  induction p with
  | nil => rfl
  | cons a as ih => simp [prefixOf, ih]

lemma prefixOf_ne_head (a : Char) (as : List Char) (b : Char) (bs : List Char)
    (h : ¬a = b) : prefixOf (a :: as) (b :: bs) = false := by
  simp [prefixOf, h]

lemma matchFencedAt_cons_ne (c : Char) (l : List Char) (hc : c ≠ bt) :
    matchFencedAt (c :: l) = none := by
  have hp : prefixOf fence (c :: l) = false := by
    rw [show fence = bt :: [bt, bt] from rfl]
    exact prefixOf_ne_head _ _ _ _ (fun e => hc e.symm)
  simp [matchFencedAt, hp]

lemma splitAtNewline_append (l z : List Char) (h : '\n' ∉ l) :
    splitAtNewline (l ++ '\n' :: z) = some (l, z) := by
  induction l with
  | nil => simp [splitAtNewline]
  | cons c cs ih =>
    have h2 : ¬('\n' = c ∨ '\n' ∈ cs) := fun hm => h (List.mem_cons.mpr hm)
    have hc : ¬c = '\n' := fun e => h2 (Or.inl e.symm)
    have h' : '\n' ∉ cs := fun m => h2 (Or.inr m)
    simp [splitAtNewline, hc, ih h']

lemma splitAtFence_fence (r : List Char) :
    splitAtFence (fence ++ r) = some ([], r) := by
  have hp : prefixOf fence (bt :: bt :: bt :: r) = true := prefixOf_append fence r
  show splitAtFence (bt :: bt :: bt :: r) = some ([], r)
  rw [splitAtFence, if_pos hp]
  rfl

lemma splitAtFence_append (b r : List Char) (hb : NoBacktick b) :
    splitAtFence (b ++ (fence ++ r)) = some (b, r) := by
  induction b with
  | nil =>
    rw [List.nil_append]
    exact splitAtFence_fence r
  | cons c cs ih =>
    have hc : c ≠ bt := hb c (List.mem_cons_self _ _)
    have hb' : NoBacktick cs := fun x hx => hb x (List.mem_cons_of_mem _ hx)
    have hp : prefixOf fence (c :: (cs ++ (fence ++ r))) = false := by
      rw [show fence = bt :: [bt, bt] from rfl]
      exact prefixOf_ne_head _ _ _ _ (fun e => hc e.symm)
    rw [List.cons_append]
    simp [splitAtFence, hp, ih hb']

lemma coreMatch_block (lab b r : List Char) (hne : lab ≠ []) (hn : '\n' ∉ lab)
    (hb : NoBacktick b) :
    coreMatch (lab ++ ('\n' :: (b ++ (fence ++ r)))) = some (lab, b, r) := by
  simp [coreMatch, splitAtNewline_append lab (b ++ (fence ++ r)) hn, hne,
    splitAtFence_append b r hb]

lemma matchFencedAt_block (h : Char) (t b r : List Char) (hs : isSpace h = false)
    (hn : '\n' ∉ h :: t) (hb : NoBacktick b) :
    matchFencedAt (mkBlock (h :: t) b r) = some (h :: t, b, r) := by
  have hfence : prefixOf fence (mkBlock (h :: t) b r) = true := by
    rw [mkBlock]
    exact prefixOf_append _ _
  have hdrop3 : (mkBlock (h :: t) b r).drop 3
      = fnTag ++ (' ' :: ((h :: t) ++ ('\n' :: (b ++ (fence ++ r))))) := by
    rw [mkBlock]
    rfl
  have hfn : prefixOf fnTag ((mkBlock (h :: t) b r).drop 3) = true := by
    rw [hdrop3]
    exact prefixOf_append _ _
  have hdrop9 : ((mkBlock (h :: t) b r).drop 3).drop 9
      = ' ' :: ((h :: t) ++ ('\n' :: (b ++ (fence ++ r)))) := by
    rw [hdrop3]
    rfl
  have hws : wsRun (' ' :: ((h :: t) ++ ('\n' :: (b ++ (fence ++ r))))) = 1 := by
    rw [List.cons_append]
    simp [wsRun, hs, show isSpace ' ' = true from by decide]
  have hcore : coreMatch ((h :: t) ++ ('\n' :: (b ++ (fence ++ r))))
      = some (h :: t, b, r) :=
    coreMatch_block _ _ _ (by simp) hn hb
  have htry : tryWs 1 (' ' :: ((h :: t) ++ ('\n' :: (b ++ (fence ++ r)))))
      = some (h :: t, b, r) := by
    have hd1 : (' ' :: ((h :: t) ++ ('\n' :: (b ++ (fence ++ r))))).drop 1
        = (h :: t) ++ ('\n' :: (b ++ (fence ++ r))) := rfl
    rw [tryWs, hd1, hcore]
  rw [matchFencedAt, if_pos hfence, if_pos hfn, hdrop9, hws, htry]

lemma scanAux_nil (f : Nat) : scanAux f [] = [] := by
  cases f <;> rfl

lemma scanAux_step (f : Nat) (s lab b rest : List Char)
    (h : matchFencedAt s = some (lab, b, rest)) :
    scanAux (f + 1) s = (lab, b) :: scanAux f rest := by
  cases s with
  | nil => exact Option.noConfusion h
  | cons c cs => simp [scanAux, h]

lemma scanAux_skip :
    ∀ (f : Nat) (r xs : List Char), (∀ c ∈ xs, c ≠ bt) →
      scanAux (xs.length + f) (xs ++ r) = scanAux f r := by
  intro f r xs
  induction xs with
  | nil => intro _; simp
  | cons c cs ih =>
    intro hx
    have hc : c ≠ bt := hx c (List.mem_cons_self _ _)
    have hx' : ∀ x ∈ cs, x ≠ bt := fun x m => hx x (List.mem_cons_of_mem _ m)
    have hm : matchFencedAt (c :: (cs ++ r)) = none := matchFencedAt_cons_ne _ _ hc
    show scanAux (cs.length + 1 + f) ((c :: cs) ++ r) = scanAux f r
    rw [List.cons_append, Nat.add_right_comm]
    simp only [scanAux, hm]
    exact ih hx'

lemma mkBlock_length (lab b r : List Char) :
    (mkBlock lab b r).length = lab.length + b.length + r.length + 17 := by
  simp [mkBlock, fence, fnTag]
  omega

lemma soloBlock_length (lab b r : List Char) :
    (soloBlock lab b r).length = lab.length + b.length + r.length + 7 := by
  simp [soloBlock, fence]
  omega

lemma scan_two (h1 h2 : Char) (t1 t2 b1 b2 sep : List Char)
    (hs1 : isSpace h1 = false) (hn1 : '\n' ∉ h1 :: t1)
    (hs2 : isSpace h2 = false) (hn2 : '\n' ∉ h2 :: t2)
    (hb1 : NoBacktick b1) (hb2 : NoBacktick b2) (hsep : NoBacktick sep) :
    scanAux (mkBlock (h1 :: t1) b1 (sep ++ mkBlock (h2 :: t2) b2 [])).length
        (mkBlock (h1 :: t1) b1 (sep ++ mkBlock (h2 :: t2) b2 []))
      = [(h1 :: t1, b1), (h2 :: t2, b2)] := by
  have hm1 : matchFencedAt (mkBlock (h1 :: t1) b1 (sep ++ mkBlock (h2 :: t2) b2 []))
      = some (h1 :: t1, b1, sep ++ mkBlock (h2 :: t2) b2 []) :=
    matchFencedAt_block h1 t1 b1 _ hs1 hn1 hb1
  have hm2 : matchFencedAt (mkBlock (h2 :: t2) b2 []) = some (h2 :: t2, b2, []) :=
    matchFencedAt_block h2 t2 b2 [] hs2 hn2 hb2
  have hlen : (mkBlock (h1 :: t1) b1 (sep ++ mkBlock (h2 :: t2) b2 [])).length
      = (h1 :: t1).length + b1.length
        + (sep.length + ((h2 :: t2).length + b2.length + 17)) + 17 := by
    rw [mkBlock_length, List.length_append, mkBlock_length]
    simp only [List.length_nil]
  obtain ⟨f0, hf0⟩ :
      ∃ f0, (mkBlock (h1 :: t1) b1 (sep ++ mkBlock (h2 :: t2) b2 [])).length
        = f0 + 1 :=
    ⟨(mkBlock (h1 :: t1) b1 (sep ++ mkBlock (h2 :: t2) b2 [])).length - 1,
      by omega⟩
  rw [hf0, scanAux_step f0 _ _ _ _ hm1]
  obtain ⟨f1, hf1⟩ : ∃ f1, f0 = sep.length + (f1 + 1) :=
    ⟨f0 - sep.length - 1, by simp [List.length_cons] at hlen; omega⟩
  rw [hf1, scanAux_skip (f1 + 1) (mkBlock (h2 :: t2) b2 []) sep hsep,
    scanAux_step f1 _ _ _ _ hm2, scanAux_nil]

lemma matchFencedAt_solo (h : Char) (t b r : List Char) (hf : ¬h = 'f')
    (hn : '\n' ∉ h :: t) (hb : NoBacktick b) :
    matchFencedAt (soloBlock (h :: t) b r) = some (h :: t, b, r) := by
  have hfence : prefixOf fence (soloBlock (h :: t) b r) = true := by
    rw [soloBlock]
    exact prefixOf_append _ _
  have hdrop3 : (soloBlock (h :: t) b r).drop 3
      = (h :: t) ++ ('\n' :: (b ++ (fence ++ r))) := by
    rw [soloBlock]
    rfl
  have hfn : prefixOf fnTag ((soloBlock (h :: t) b r).drop 3) = false := by
    rw [hdrop3]
    show prefixOf ('f' :: ['i', 'l', 'e', 'n', 'a', 'm', 'e', ':'])
      (h :: (t ++ ('\n' :: (b ++ (fence ++ r))))) = false
    exact prefixOf_ne_head _ _ _ _ (fun e => hf e.symm)
  have hcore : coreMatch ((h :: t) ++ ('\n' :: (b ++ (fence ++ r))))
      = some (h :: t, b, r) :=
    coreMatch_block _ _ _ (by simp) hn hb
  rw [matchFencedAt, if_pos hfence, if_neg (by rw [hfn]; simp), hdrop3, hcore]

lemma procMatches_nil (acc : List (List Char × List Char)) :
    procMatches acc [] = acc := rfl

lemma procMatches_skip (acc : List (List Char × List Char))
    (lab body : List Char) (rest : List (List Char × List Char))
    (h : asciiLower (pyStrip lab) ∈ skipTags) :
    procMatches acc ((lab, body) :: rest) = procMatches acc rest := by
  simp [procMatches, h]

lemma procMatches_keep (acc : List (List Char × List Char))
    (lab body : List Char) (rest : List (List Char × List Char))
    (h : asciiLower (pyStrip lab) ∉ skipTags) :
    procMatches acc ((lab, body) :: rest)
      = procMatches
          (pyInsert acc (pyStrip (removeFilename (pyStrip lab))) (pyStrip body))
          rest := by
  simp [procMatches, h]

lemma parse_solo (h : Char) (t b : List Char) (hf : ¬h = 'f') (hn : '\n' ∉ h :: t)
    (hb : NoBacktick b) :
    MultiAgentGenerator.parse_files_from_response (soloBlock (h :: t) b [])
      = procMatches [] [(h :: t, b)] := by
  have hun : MultiAgentGenerator.parse_files_from_response (soloBlock (h :: t) b [])
      = procMatches []
          (scanAux (soloBlock (h :: t) b []).length (soloBlock (h :: t) b [])) :=
    rfl
  obtain ⟨f0, hf0⟩ : ∃ f0, (soloBlock (h :: t) b []).length = f0 + 1 := by
    refine ⟨(soloBlock (h :: t) b []).length - 1, ?_⟩
    have := soloBlock_length (h :: t) b []
    omega
  rw [hun, hf0, scanAux_step f0 _ _ _ _ (matchFencedAt_solo h t b [] hf hn hb),
    scanAux_nil]

lemma parse_solo_skipped (lab b : List Char) (hne : lab ≠ [])
    (hhead : ¬lab.headD ' ' = 'f') (hn : '\n' ∉ lab) (hb : NoBacktick b)
    (hsk : asciiLower (pyStrip lab) ∈ skipTags) :
    MultiAgentGenerator.parse_files_from_response (soloBlock lab b []) = [] := by
  cases lab with
  | nil => exact absurd rfl hne
  | cons h t =>
    have hf : ¬h = 'f' := hhead
    rw [parse_solo h t b hf hn hb, procMatches_skip _ _ _ _ hsk, procMatches_nil]

lemma parse_solo_kept (lab b : List Char) (hne : lab ≠ [])
    (hhead : ¬lab.headD ' ' = 'f') (hn : '\n' ∉ lab) (hb : NoBacktick b)
    (hsk : asciiLower (pyStrip lab) ∉ skipTags) :
    MultiAgentGenerator.parse_files_from_response (soloBlock lab b [])
      = [(pyStrip (removeFilename (pyStrip lab)), pyStrip b)] := by
  cases lab with
  | nil => exact absurd rfl hne
  | cons h t =>
    have hf : ¬h = 'f' := hhead
    rw [parse_solo h t b hf hn hb, procMatches_keep _ _ _ _ hsk, procMatches_nil]
    rfl

/-- Claim C7: a response made of exactly two fenced blocks labeled
    `filename: a.py` and `filename: b.py` (bodies and separator free of
    fence characters) parses to exactly the two entries, each body
    stripped of surrounding whitespace; and when the same path labels
    both blocks, the later block's content wins. -/
theorem claim_c7 :
    ∀ b1 b2 sep : List Char,
      NoBacktick b1 → NoBacktick b2 → NoBacktick sep →
      MultiAgentGenerator.parse_files_from_response
          (mkBlock ("a.py".data) b1 (sep ++ mkBlock ("b.py".data) b2 []))
        = [("a.py".data, pyStrip b1), ("b.py".data, pyStrip b2)]
      ∧ MultiAgentGenerator.parse_files_from_response
          (mkBlock ("a.py".data) b1 (sep ++ mkBlock ("a.py".data) b2 []))
        = [("a.py".data, pyStrip b2)] := by
  intro b1 b2 sep hb1 hb2 hsep
  have hea : ("a.py".data : List Char) = 'a' :: ".py".data := by decide
  have heb : ("b.py".data : List Char) = 'b' :: ".py".data := by decide
  constructor
  · have hun : MultiAgentGenerator.parse_files_from_response
        (mkBlock ("a.py".data) b1 (sep ++ mkBlock ("b.py".data) b2 []))
        = procMatches []
            (scanAux
              (mkBlock ("a.py".data) b1
                (sep ++ mkBlock ("b.py".data) b2 [])).length
              (mkBlock ("a.py".data) b1
                (sep ++ mkBlock ("b.py".data) b2 []))) := rfl
    rw [hun, hea, heb,
      scan_two 'a' 'b' (".py".data) (".py".data) b1 b2 sep (by decide)
        (by decide) (by decide) (by decide) hb1 hb2 hsep]
    rfl
  · have hun : MultiAgentGenerator.parse_files_from_response
        (mkBlock ("a.py".data) b1 (sep ++ mkBlock ("a.py".data) b2 []))
        = procMatches []
            (scanAux
              (mkBlock ("a.py".data) b1
                (sep ++ mkBlock ("a.py".data) b2 [])).length
              (mkBlock ("a.py".data) b1
                (sep ++ mkBlock ("a.py".data) b2 []))) := rfl
    rw [hun, hea,
      scan_two 'a' 'a' (".py".data) (".py".data) b1 b2 sep (by decide)
        (by decide) (by decide) (by decide) hb1 hb2 hsep]
    rfl

/-- Claim C7, witness: concrete bodies and separator. -/
theorem claim_c7_witness :
    MultiAgentGenerator.parse_files_from_response
        (mkBlock ("a.py".data) ("x = 1".data)
          ("\n".data ++ mkBlock ("b.py".data) (" y = 2 ".data) []))
      = [("a.py".data, pyStrip ("x = 1".data)),
         ("b.py".data, pyStrip (" y = 2 ".data))] :=
  (claim_c7 ("x = 1".data) (" y = 2 ".data) ("\n".data) (by decide) (by decide)
    (by decide)).1

/-- Claim C8: a fenced block whose label is a bare recognized language
    tag - any member of the parser's skip list - is excluded from the
    parsed output. -/
theorem claim_c8 :
    ∀ tag ∈ skipTags, ∀ b : List Char, NoBacktick b →
      MultiAgentGenerator.parse_files_from_response (soloBlock tag b []) = [] := by
  intro tag htag b hb
  have hcases : tag = "python".data ∨ tag = "yaml".data ∨ tag = "yml".data
      ∨ tag = "bash".data ∨ tag = "sh".data ∨ tag = "dockerfile".data
      ∨ tag = "json".data ∨ tag = "markdown".data ∨ tag = "md".data := by
    simpa [skipTags] using htag
  rcases hcases with rfl | rfl | rfl | rfl | rfl | rfl | rfl | rfl | rfl <;>
    exact parse_solo_skipped _ b (by decide) (by decide) (by decide) hb (by decide)

/-- Claim C8, witness: a block labeled `python`. -/
theorem claim_c8_witness :
    MultiAgentGenerator.parse_files_from_response
        (soloBlock ("python".data) ("print(1)".data) []) = [] :=
  claim_c8 ("python".data) (by decide) ("print(1)".data) (by decide)

/-- Claim C9: the iteration merge keeps every existing path (so
    iteration never deletes a file), leaves paths absent from the
    parsed modification reply unchanged, overwrites or adds every path
    the reply provides, and on the concrete example merges existing
    `{a.py: v1}` with a reply changing `a.py` to `v2` and adding
    `c.py: v3` into `{a.py: v2, c.py: v3}`. -/
theorem claim_c9 :
    ∀ (existing : List (List Char × List Char)) (reply : List Char),
      (∀ k, containsKey existing k = true →
        containsKey (MultiAgentGenerator.iterate_on_system existing reply) k
          = true)
      ∧ (∀ k,
          dget (MultiAgentGenerator.parse_files_from_response reply) k = none →
          dget (MultiAgentGenerator.iterate_on_system existing reply) k
            = dget existing k)
      ∧ (∀ k v,
          dget (MultiAgentGenerator.parse_files_from_response reply) k = some v →
          dget (MultiAgentGenerator.iterate_on_system existing reply) k
            = some v)
      ∧ MultiAgentGenerator.iterate_on_system [("a.py".data, "v1".data)] c9Reply
          = [("a.py".data, "v2".data), ("c.py".data, "v3".data)] := by
  intro existing reply
  refine ⟨?_, ?_, ?_, by decide⟩
  · intro k hk
    show containsKey
      (pyUpdate existing (MultiAgentGenerator.parse_files_from_response reply)) k
        = true
    rw [ck_pyUpdate, hk]
    rfl
  · intro k hn
    show dget
      (pyUpdate existing (MultiAgentGenerator.parse_files_from_response reply)) k
        = dget existing k
    rw [dget_pyUpdate, hn]
    rfl
  · intro k v hv
    show dget
      (pyUpdate existing (MultiAgentGenerator.parse_files_from_response reply)) k
        = some v
    rw [dget_pyUpdate, hv]
    rfl

/-- Claim C9, witness: the new `c.py` from the reply is present in the
    merged set with the reply's content. -/
theorem claim_c9_witness :
    dget (MultiAgentGenerator.iterate_on_system [("a.py".data, "v1".data)]
        c9Reply) ("c.py".data) = some ("v3".data) :=
  (claim_c9 [("a.py".data, "v1".data)] c9Reply).2.2.1 ("c.py".data) ("v3".data)
    (by decide)

/-- Claim C10: a fenced block labeled exactly `Dockerfile` is matched
    case-insensitively by the language-tag skip list and silently
    excluded from the parsed output, while the path
    `agent1/Dockerfile` (containing a directory separator) survives
    parsing. -/
theorem claim_c10 :
    (∀ b : List Char, NoBacktick b →
      MultiAgentGenerator.parse_files_from_response
        (soloBlock ("Dockerfile".data) b []) = [])
    ∧ (∀ b : List Char, NoBacktick b →
      MultiAgentGenerator.parse_files_from_response
        (soloBlock ("agent1/Dockerfile".data) b [])
        = [("agent1/Dockerfile".data, pyStrip b)]) := by
  constructor
  · intro b hb
    exact parse_solo_skipped _ b (by decide) (by decide) (by decide) hb (by decide)
  · intro b hb
    rw [parse_solo_kept ("agent1/Dockerfile".data) b (by decide) (by decide)
        (by decide) hb (by decide),
      show pyStrip (removeFilename (pyStrip ("agent1/Dockerfile".data)))
          = "agent1/Dockerfile".data from by decide]

/-- Claim C10, witness: a concrete Dockerfile body. -/
theorem claim_c10_witness :
    MultiAgentGenerator.parse_files_from_response
        (soloBlock ("Dockerfile".data) ("FROM python".data) []) = []
    ∧ MultiAgentGenerator.parse_files_from_response
        (soloBlock ("agent1/Dockerfile".data) ("FROM python".data) [])
        = [("agent1/Dockerfile".data, pyStrip ("FROM python".data))] :=
  ⟨claim_c10.1 ("FROM python".data) (by decide),
   claim_c10.2 ("FROM python".data) (by decide)⟩

/-! Lemmas about the keys of the final artifact dict, used to settle
    the summary guard `len(files) < len(manifest)`. -/

lemma ck_of_mem {α β : Type} [DecidableEq α] (d : List (α × β)) (p : α × β)
    (hp : p ∈ d) : containsKey d p.1 = true := by
  induction d with
  | nil => cases hp
  | cons q d ih =>
    rw [ck_cons]
    rcases List.mem_cons.mp hp with rfl | hm
    · simp
    · rw [ih hm]
      simp

lemma ck_eq_mem_keys {α β : Type} [DecidableEq α] (d : List (α × β)) (k : α) :
    containsKey d k = true ↔ k ∈ d.map Prod.fst := by
  constructor
  · intro h
    rcases ck_exists d k h with ⟨p, hp, hpk⟩
    exact List.mem_map.mpr ⟨p, hp, hpk⟩
  · intro h
    rcases List.mem_map.mp h with ⟨p, hp, rfl⟩
    exact ck_of_mem d p hp

lemma keys_pyInsert_of_ck {α β : Type} [DecidableEq α] (d : List (α × β))
    (k : α) (v : β) (h : containsKey d k = true) :
    (pyInsert d k v).map Prod.fst = d.map Prod.fst := by
  unfold pyInsert
  rw [if_pos h, List.map_map]
  apply List.map_congr_left
  intro p _
  by_cases hp : p.1 = k <;> simp [hp]

lemma keys_pyInsert_of_not_ck {α β : Type} [DecidableEq α] (d : List (α × β))
    (k : α) (v : β) (h : containsKey d k = false) :
    (pyInsert d k v).map Prod.fst = d.map Prod.fst ++ [k] := by
  unfold pyInsert
  rw [if_neg (by simp [h]), List.map_append]
  rfl

lemma keysNodup_pyInsert {α β : Type} [DecidableEq α] (d : List (α × β))
    (k : α) (v : β) (h : (d.map Prod.fst).Nodup) :
    ((pyInsert d k v).map Prod.fst).Nodup := by
  cases hck : containsKey d k
  · rw [keys_pyInsert_of_not_ck d k v hck]
    have hk : k ∉ d.map Prod.fst := by
      intro hm
      exact absurd ((ck_eq_mem_keys d k).mpr hm) (by simp [hck])
    exact h.append (List.nodup_singleton k)
      (fun a ha hb => hk (by rcases List.mem_singleton.mp hb with rfl; exact ha))
  · rw [keys_pyInsert_of_ck d k v hck]
    exact h

lemma keysNodup_pyUpdate {α β : Type} [DecidableEq α] :
    ∀ (u d : List (α × β)), (d.map Prod.fst).Nodup →
      ((pyUpdate d u).map Prod.fst).Nodup := by
  intro u
  induction u with
  | nil => intro d h; exact h
  | cons p u ih =>
    intro d h
    show ((pyUpdate (pyInsert d p.1 p.2) u).map Prod.fst).Nodup
    exact ih _ (keysNodup_pyInsert d p.1 p.2 h)

lemma keysNodup_foldl_update {γ : Type} (F : γ → List (String × String)) :
    ∀ (xs : List γ) (a0 : List (String × String)), (a0.map Prod.fst).Nodup →
      ((xs.foldl (fun a x => pyUpdate a (F x)) a0).map Prod.fst).Nodup := by
  intro xs
  induction xs with
  | nil => intro a0 h; exact h
  | cons x xs ih =>
    intro a0 h
    show ((xs.foldl _ (pyUpdate a0 (F x))).map Prod.fst).Nodup
    exact ih _ (keysNodup_pyUpdate _ a0 h)

lemma keysNodup_gapFill (go : String → List (String × String) → String) :
    ∀ (missing : List String) (fs : List (String × String)),
      (fs.map Prod.fst).Nodup →
      ((ImprovedMultiAgentGenerator.gapFill go missing fs).map Prod.fst).Nodup := by
  intro missing
  induction missing with
  | nil => intro fs h; exact h
  | cons f ms ih =>
    intro fs h
    rw [gapFill_cons]
    apply ih
    by_cases hc : go f fs = ""
    · rw [if_pos hc]; exact h
    · rw [if_neg hc]; exact keysNodup_pyInsert fs f (go f fs) h

lemma keysNodup_final (bo : List String → Option (List (String × String)))
    (go : String → List (String × String) → String) (manifest : List String) :
    (((ImprovedMultiAgentGenerator.generate_system bo go manifest).1).map
      Prod.fst).Nodup := by
  show ((ImprovedMultiAgentGenerator.gapFill go
      (ImprovedMultiAgentGenerator.missingAfterBatch bo manifest)
      (ImprovedMultiAgentGenerator.phase2 bo manifest)).map Prod.fst).Nodup
  apply keysNodup_gapFill
  exact keysNodup_foldl_update
    (fun g : String × List String =>
      ImprovedMultiAgentGenerator.generate_file_group bo g.2)
    (ImprovedMultiAgentGenerator.group_files manifest) [] (by simp)

lemma final_keys_in_manifest (bo : List String → Option (List (String × String)))
    (go : String → List (String × String) → String) (manifest : List String)
    (H : ∀ c d, bo c = some d → ∀ q ∈ d, q.1 ∈ manifest) :
    ∀ k,
      containsKey (ImprovedMultiAgentGenerator.generate_system bo go manifest).1 k
        = true →
      k ∈ manifest := by
  intro k hk
  have hk' : containsKey
      (ImprovedMultiAgentGenerator.gapFill go
        (ImprovedMultiAgentGenerator.missingAfterBatch bo manifest)
        (ImprovedMultiAgentGenerator.phase2 bo manifest)) k = true := hk
  rcases gapFill_key_bound go _ _ k hk' with h2 | hmiss
  · rcases phase2_key_bound bo manifest k h2 with ⟨c, hc⟩
    cases hbo : bo c with
    | none =>
      rw [chunkResult_none bo c hbo] at hc
      simp [containsKey] at hc
    | some d =>
      rw [chunkResult_some bo c d hbo] at hc
      rcases ck_exists d k hc with ⟨q, hqd, hqk⟩
      have hmem := H c d hbo q hqd
      rwa [hqk] at hmem
  · exact (List.mem_filter.mp hmiss).1

lemma generate_system_snd (bo : List String → Option (List (String × String)))
    (go : String → List (String × String) → String) (manifest : List String) :
    (ImprovedMultiAgentGenerator.generate_system bo go manifest).2
      = if (ImprovedMultiAgentGenerator.generate_system bo go manifest).1.length
            < manifest.length
        then manifest.filter
          (fun f =>
            !(containsKey
              (ImprovedMultiAgentGenerator.generate_system bo go manifest).1 f))
        else [] := rfl

lemma summary_guard (bo : List String → Option (List (String × String)))
    (go : String → List (String × String) → String) (manifest : List String)
    (p : String)
    (Hbo : ∀ c d, bo c = some d →
      containsKey d p = false ∧ ∀ q ∈ d, q.1 ∈ manifest)
    (Hgo : ∀ fs, go p fs = "") (hm : p ∈ manifest) :
    (ImprovedMultiAgentGenerator.generate_system bo go manifest).1.length
      < manifest.length := by
  have hnodup := keysNodup_final bo go manifest
  have hpck : containsKey
      (ImprovedMultiAgentGenerator.generate_system bo go manifest).1 p = false :=
    gapFill_preserve go p Hgo _ _
      (phase2_ck_false bo manifest p (fun c d h => (Hbo c d h).1))
  have hpkeys : p ∉ ((ImprovedMultiAgentGenerator.generate_system bo go
      manifest).1).map Prod.fst := by
    intro hmem
    exact absurd ((ck_eq_mem_keys _ p).mpr hmem) (by simp [hpck])
  have hsub : ((ImprovedMultiAgentGenerator.generate_system bo go
      manifest).1).map Prod.fst ⊆ manifest.erase p := by
    intro k hk
    have hkm : k ∈ manifest :=
      final_keys_in_manifest bo go manifest (fun c d h => (Hbo c d h).2) k
        ((ck_eq_mem_keys _ k).mpr hk)
    have hkp : k ≠ p := fun e => hpkeys (e ▸ hk)
    exact (List.mem_erase_of_ne hkp).mpr hkm
  have hle := (hnodup.subperm hsub).length_le
  rw [List.length_map] at hle
  have herase := List.length_erase_of_mem hm
  have hpos := List.length_pos_of_mem hm
  omega

/-- Claim C6, counterexample: with manifest `["a.py", "b.py"]`, a batch
    reply that decodes to `{a.py, evil.py}` and a gap oracle that only
    ever returns empty content, the path `b.py` is left unresolved in
    the final artifact set, yet the program prints no unresolved-path
    summary: the leaked extra key makes `len(files) = len(manifest)`,
    so the guard `len(files) < len(manifest)` is false and the claimed
    reporting does not happen. -/
theorem claim_c6_counterexample :
    containsKey
        (ImprovedMultiAgentGenerator.generate_system
          (fun _ => some [("a.py", "x"), ("evil.py", "y")])
          (fun _ _ => "") ["a.py", "b.py"]).1 "b.py" = false
    ∧ "b.py" ∈ ["a.py", "b.py"]
    ∧ (ImprovedMultiAgentGenerator.generate_system
        (fun _ => some [("a.py", "x"), ("evil.py", "y")])
        (fun _ _ => "") ["a.py", "b.py"]).2 = [] := by
  decide

/-- Claim C6, amended: a path whose gap-filling never obtains usable
    (non-empty) content is handled non-fatally - the session completes
    with the path absent from the final artifact set - and it is
    reported in the closing summary provided every decoded batch reply
    maps only manifest paths (and none supplies the path itself): then
    the final artifact count is provably below the manifest length, the
    summary guard fires, and the path appears in the reported list.
    Without that proviso a reply leaking unrequested keys can pad the
    artifact count and suppress the summary, as the counterexample
    shows. -/
theorem claim_c6_amended :
    ∀ (bo : List String → Option (List (String × String)))
      (go : String → List (String × String) → String)
      (manifest : List String) (p : String),
      (∀ c d, bo c = some d →
        containsKey d p = false ∧ ∀ q ∈ d, q.1 ∈ manifest) →
      (∀ fs, go p fs = "") →
      containsKey (ImprovedMultiAgentGenerator.generate_system bo go manifest).1 p
        = false
      ∧ (p ∈ manifest →
          p ∈ (ImprovedMultiAgentGenerator.generate_system bo go manifest).2) := by
  intro bo go manifest p Hbo Hgo
  have h1 : containsKey
      (ImprovedMultiAgentGenerator.generate_system bo go manifest).1 p = false :=
    gapFill_preserve go p Hgo _ _
      (phase2_ck_false bo manifest p (fun c d h => (Hbo c d h).1))
  refine ⟨h1, fun hm => ?_⟩
  rw [generate_system_snd, if_pos (summary_guard bo go manifest p Hbo Hgo hm)]
  exact List.mem_filter.mpr ⟨hm, by rw [h1]; rfl⟩

/-- Claim C6, witness for the amended theorem: every chunk fails to
    decode and the gap oracle returns empty content, so the path stays
    unresolved and is reported in the summary. -/
theorem claim_c6_amended_witness :
    containsKey
        (ImprovedMultiAgentGenerator.generate_system
          (fun _ => none) (fun _ _ => "") ["a.py"]).1 "a.py" = false
    ∧ "a.py" ∈ (ImprovedMultiAgentGenerator.generate_system
        (fun _ => none) (fun _ _ => "") ["a.py"]).2 := by
  have h := claim_c6_amended (fun _ => none) (fun _ _ => "") ["a.py"] "a.py"
    (fun c d hcd => by cases hcd) (fun _ => rfl)
  exact ⟨h.1, h.2 (by decide)⟩
